import Mathlib

/-!
Verification of the COCO batch-generator (generate_coco_data.py) against its
natural-language specification.

The data-generation pipeline is shallowly embedded:
* numpy integer casts (`dtype=np.int8` / `np.int16`) are modelled as wrapping
  into the signed range, `int(...)` / float-to-int casts as truncation toward
  zero;
* `cv2.resize` is an external collaborator; the spec treats it as an opaque
  resize primitive, so its output size follows the cv2 rule
  round(dim * scale) while the interpolated pixel content is an arbitrary
  function (an `Interp` parameter), over which all theorems quantify;
* Python exceptions (ZeroDivisionError, numpy broadcast/empty-reduction
  ValueError, reshape errors) are modelled by `Option`, `none` meaning the
  call raises.
-/

namespace CocoGen

/-- Truncation toward zero of a rational, as Python `int(...)` and numpy
float-to-integer casts behave. -/
def truncQ (q : ℚ) : ℤ := if 0 ≤ q then ⌊q⌋ else ⌈q⌉

/-- cv2 output-size rounding: round half up (ties never matter for the
properties proved here, see `npRound_le` / `npRound_natCast`). -/
def npRound (q : ℚ) : ℕ := (⌊q + 1/2⌋).toNat

/-- numpy cast to int16: wrap into [-32768, 32767]. -/
def toInt16 (z : ℤ) : ℤ := (z + 32768) % 65536 - 32768

/-- numpy cast to int8: wrap into [-128, 127]. -/
def toInt8 (z : ℤ) : ℤ := (z + 128) % 256 - 128

/-- A coordinate triple (x, y, visibility). -/
abbrev Tri := ℤ × ℤ × ℤ

/-- A bounding box; in this code base stored as [xmin, ymin, xmax, ymax]. -/
abbrev Box := ℤ × ℤ × ℤ × ℤ

def tri8 (t : Tri) : Tri := (toInt8 t.1, toInt8 t.2.1, toInt8 t.2.2)

def tri16 (t : Tri) : Tri := (toInt16 t.1, toInt16 t.2.1, toInt16 t.2.2)

def boxToInt16 (b : Box) : Box :=
  (toInt16 b.1, toInt16 b.2.1, toInt16 b.2.2.1, toInt16 b.2.2.2)

/-- Sequential evaluation of an option-valued function over a list, as a
Python loop that can raise behaves: any failure aborts the whole call. -/
def optMap {α β : Type} (f : α → Option β) : List α → Option (List β)
  | [] => some []
  | a :: l =>
    match f a, optMap f l with
    | some b, some bl => some (b :: bl)
    | _, _ => none

/-- Constructor configuration of CoCoDataGenrator. -/
structure Cfg where
  targetH : ℕ        -- img_shape[0]
  targetW : ℕ        -- img_shape[1]
  targetC : ℕ        -- img_shape[2]
  batchSize : ℕ
  maxInstances : ℕ
  includeCrowd : Bool
  includeMask : Bool
  includeKeypoint : Bool

/-- A per-pixel binary mask as produced by coco.annToMask (image-sized). -/
structure Mask where
  h : ℕ
  w : ℕ
  val : ℕ → ℕ → ℚ

/-- One COCO annotation record.  bbox is the raw [x, y, w, h] float box. -/
structure Ann where
  bboxX : ℚ
  bboxY : ℚ
  bboxW : ℚ
  bboxH : ℚ
  categoryId : ℤ
  iscrowd : Bool
  maskH : ℕ
  maskW : ℕ
  maskVal : ℕ → ℕ → ℚ
  keypoints : List ℤ    -- flat [x1, y1, v1, x2, ...]; [] models absent/falsy

/-- Result of io.imread: a numpy array with its shape tuple. -/
structure Fetched where
  shape : List ℕ
  val : ℕ → ℕ → ℕ → ℚ

/-- The COCO annotation index, an external collaborator. -/
structure Store where
  imgIds : List ℕ                 -- iteration order of coco.imgToAnns
  anns : ℕ → List Ann             -- all annotations of an image
  imgs : ℕ → Fetched              -- io.imread of the recorded url

/-- Abstract single-channel interpolation: source dims, source content,
scale factor, destination pixel.  cv2.INTER_LINEAR is one instance; all
theorems hold for every interpolator. -/
abbrev Interp := ℕ → ℕ → (ℕ → ℕ → ℚ) → ℚ → ℕ → ℕ → ℚ

/-- Abstract three-channel interpolation. -/
abbrev Interp3 := ℕ → ℕ → (ℕ → ℕ → ℕ → ℚ) → ℚ → ℕ → ℕ → ℕ → ℚ

/-- The zero-padded image buffer produced by _resize_im: a zero buffer of
the configured img_shape whose top-left (rh, rw) region holds the resized
image. -/
structure Blob where
  height : ℕ
  width : ℕ
  channels : ℕ
  rh : ℕ
  rw : ℕ
  val : ℕ → ℕ → ℕ → ℚ

/-- The concatenated mask stack produced by _resize_mask
([targetH, targetW, n], content placed top-left). -/
structure MaskStack where
  n : ℕ
  rh : ℕ
  rw : ℕ
  val : ℕ → ℕ → ℕ → ℚ

/-- Line 112: np.array(bboxes * im_scale, dtype=np.int16) — multiply all
four coordinates by the scale, truncate toward zero, wrap to int16. -/
def resizeBoxesM (boxes : List Box) (s : ℚ) : List Box :=
  boxes.map fun b =>
    (toInt16 (truncQ ((b.1 : ℚ) * s)), toInt16 (truncQ ((b.2.1 : ℚ) * s)),
     toInt16 (truncQ ((b.2.2.1 : ℚ) * s)), toInt16 (truncQ ((b.2.2.2 : ℚ) * s)))

/-- _resize_im (lines 93-114).  Scale is img_shape[0] / max(h, w); the
resized image is written into a zero buffer of img_shape (the numpy
assignment raises — `none` — if the resized image does not fit or the
channel counts differ; the scale division raises if max(h, w) = 0). -/
def resizeImM (cfg : Cfg) (ip3 : Interp3) (h w c : ℕ) (val3 : ℕ → ℕ → ℕ → ℚ)
    (boxes : List Box) : Option (Blob × List Box) :=
  if max h w = 0 then none
  else
    let s : ℚ := (cfg.targetH : ℚ) / ((max h w : ℕ) : ℚ)
    let h' := npRound ((h : ℚ) * s)
    let w' := npRound ((w : ℚ) * s)
    if h' ≤ cfg.targetH ∧ w' ≤ cfg.targetW ∧ c = cfg.targetC then
      some ({ height := cfg.targetH, width := cfg.targetW, channels := cfg.targetC,
              rh := h', rw := w',
              val := fun i j k => if i < h' ∧ j < w' then ip3 h w val3 s i j k else 0 },
            resizeBoxesM boxes s)
    else none

/-- Binarized resized mask (line 132): resized value ≥ 0.5 becomes 1. -/
def binMask (ip : Interp) (m : Mask) (sM : ℚ) : ℕ → ℕ → Bool :=
  fun i j => decide ((1 : ℚ)/2 ≤ ip m.h m.w m.val sM i j)

/-- Column indices holding a nonzero pixel (np.where, second component). -/
def nzCols (bin : ℕ → ℕ → Bool) (h w : ℕ) : List ℕ :=
  (List.range w).filter fun j => (List.range h).any fun i => bin i j

/-- Row indices holding a nonzero pixel (np.where, first component). -/
def nzRows (bin : ℕ → ℕ → Bool) (h w : ℕ) : List ℕ :=
  (List.range h).filter fun i => (List.range w).any fun j => bin i j

/-- Lines 134-142: derive [xmin, ymin, xmax, ymax] from the nonzero extent
of the binarized resized mask.  np.min / np.max of an empty index array
raise, hence `none` for an all-zero mask.  The comparisons mirror the
clamping conditionals of the source (which never fire on index values). -/
def deriveBox (bin : ℕ → ℕ → Bool) (h' w' : ℕ) : Option (ℕ × ℕ × ℕ × ℕ) :=
  match (nzCols bin h' w').min?, (nzRows bin h' w').min?,
        (nzCols bin h' w').max?, (nzRows bin h' w').max? with
  | some a, some b, some c, some d =>
      some ((if 0 ≤ a then a else 0), (if 0 ≤ b then b else 0),
            (if c ≤ w' then c else w'), (if d ≤ h' then d else h'))
  | _, _, _, _ => none

/-- Per-mask body of the _resize_mask loop: derive the box, then write the
mask into a zero (targetH, targetW, 1) blob (raises if it does not fit).
The int16 cast of line 150 is applied per box. -/
def resizeMaskOne (cfg : Cfg) (h' w' : ℕ) (bin : ℕ → ℕ → Bool) : Option Box :=
  match deriveBox bin h' w' with
  | none => none
  | some (a, b, c, d) =>
      if h' ≤ cfg.targetH ∧ w' ≤ cfg.targetW then
        some (toInt16 (a : ℤ), toInt16 (b : ℤ), toInt16 (c : ℤ), toInt16 (d : ℤ))
      else none

/-- The _resize_mask scale (line 124): mask_shape[0:2] of the stacked mask
list is (N, h0), so im_scale = targetH / max(N, h0) — the number of masks,
not the mask width, enters the scale. -/
def mrS (cfg : Cfg) (m0 : Mask) (rest : List Mask) : ℚ :=
  (cfg.targetH : ℚ) / ((max (m0 :: rest).length m0.h : ℕ) : ℚ)

/-- Resized mask height round(h0 * scale). -/
def mrH (cfg : Cfg) (m0 : Mask) (rest : List Mask) : ℕ :=
  npRound ((m0.h : ℚ) * mrS cfg m0 rest)

/-- Resized mask width round(w0 * scale). -/
def mrW (cfg : Cfg) (m0 : Mask) (rest : List Mask) : ℕ :=
  npRound ((m0.w : ℚ) * mrS cfg m0 rest)

/-- _resize_mask (lines 116-154).  An empty mask list raises (division by
zero on the empty shape); modern numpy also raises on a ragged list. -/
def resizeMaskM (cfg : Cfg) (ip : Interp) (masks : List Mask) :
    Option (MaskStack × List Box) :=
  match masks with
  | [] => none
  | m0 :: rest =>
    if (m0 :: rest).all (fun m => m.h == m0.h && m.w == m0.w) then
      (optMap (fun m => resizeMaskOne cfg (mrH cfg m0 rest) (mrW cfg m0 rest)
          (binMask ip m (mrS cfg m0 rest))) (m0 :: rest)).map
        fun boxes =>
          ({ n := (m0 :: rest).length, rh := mrH cfg m0 rest, rw := mrW cfg m0 rest,
             val := fun i j t =>
               if i < mrH cfg m0 rest ∧ j < mrW cfg m0 rest ∧
                   binMask ip ((m0 :: rest).getD t m0) (mrS cfg m0 rest) i j
               then 1 else 0 },
           boxes)
    else none

/-- The Sample record returned by _data_generation.  `none` for
img / masks / keypoints models the Python empty lists that stand for
fields that were never populated. -/
structure Sample where
  img : Option Blob
  labels : List ℤ
  bboxes : List Box
  masks : Option MaskStack
  keypoints : Option (List (List Tri))

/-- Lines 170-176: the raw [x, y, w, h] float bbox becomes
[int(x), int(y), int(int(x) + w), int(int(y) + h)]. -/
def annBox (a : Ann) : Box :=
  let xmin := truncQ a.bboxX
  let ymin := truncQ a.bboxY
  (xmin, ymin, truncQ ((xmin : ℚ) + a.bboxW), truncQ ((ymin : ℚ) + a.bboxH))

/-- coco.annToMask of an annotation. -/
def annMask (a : Ann) : Mask := { h := a.maskH, w := a.maskW, val := a.maskVal }

/-- np.reshape(keypoint, [-1, 3]): raises unless the flat list splits into
(x, y, visibility) triples. -/
def toTriples : List ℤ → Option (List Tri)
  | [] => some []
  | x :: y :: v :: rest => (toTriples rest).map ((x, y, v) :: ·)
  | _ => none

/-- Lines 184-188: when keypoint inclusion is on, collect and reshape the
keypoint list of every annotation that carries one (a truthy, i.e.
nonempty, list). -/
def collectKps (cfg : Cfg) (anns : List Ann) : Option (List (List Tri)) :=
  if cfg.includeKeypoint then
    optMap (fun a => toTriples a.keypoints) (anns.filter fun a => !a.keypoints.isEmpty)
  else some []

/-- np.array on a list of per-annotation keypoint arrays needs them all of
one length (a ragged list raises). -/
def uniformLen (ls : List (List Tri)) : Bool :=
  match ls with
  | [] => true
  | l :: rest => rest.all fun x => x.length == l.length

/-- Lines 199-204: the mask branch.  When mask inclusion is on it resizes
the collected masks and REBINDS the local bboxes variable to the
mask-derived boxes; otherwise the raw annotation boxes stay. -/
def maskStage (cfg : Cfg) (ip : Interp) (anns : List Ann) (rawBoxes : List Box) :
    Option (Option MaskStack × List Box) :=
  if cfg.includeMask then
    match resizeMaskM cfg ip (anns.map annMask) with
    | none => none
    | some (stk, mbx) => some (some stk, mbx)
  else some (none, rawBoxes)

/-- Lines 207-209: np.array(keypoints, dtype=np.int8) — every keypoint
value is wrapped into the signed 8-bit range. -/
def kpStage (cfg : Cfg) (kpsRaw : List (List Tri)) :
    Option (Option (List (List Tri))) :=
  if cfg.includeKeypoint then
    if uniformLen kpsRaw then some (some (kpsRaw.map (List.map tri8))) else none
  else some none

/-- Lines 212-216: a fetched image with fewer than 2 dims fails; a 2-D
(grayscale) image is promoted to 3 channels with two zero channels; more
than 3 dims cannot be resized. -/
def imgPromote (img : Fetched) : Option (ℕ × ℕ × ℕ × (ℕ → ℕ → ℕ → ℚ)) :=
  match img.shape with
  | [h, w] => some (h, w, 3, fun i j k => if k = 0 then img.val i j 0 else 0)
  | [h, w, c] => some (h, w, c, img.val)
  | _ => none

/-- coco.getAnnIds(imgIds=image_id, iscrowd=include_crowd): the image's
annotations filtered by the crowd policy. -/
def annsOf (cfg : Cfg) (store : Store) (imageId : ℕ) : List Ann :=
  (store.anns imageId).filter fun a => a.iscrowd == cfg.includeCrowd

/-- _data_generation (lines 156-225).  Note the source-order subtleties:
the mask and keypoint branches run BEFORE the image fetch, so a decode
failure (shape with fewer than 2 dims) returns a sample whose masks,
bboxes and keypoints are already populated; and on the success path the
local bboxes variable — rebound to the mask-derived boxes when mask
inclusion is on — is cast to int16 (line 219) and resized AGAIN by the
image scale inside _resize_im (line 220), whose result is the final
bboxes field (line 223). -/
def dataGeneration (cfg : Cfg) (ip : Interp) (ip3 : Interp3) (store : Store)
    (imageId : ℕ) : Option Sample :=
  let annsF := annsOf cfg store imageId
  let rawBoxes := annsF.map annBox
  let rawLabels := annsF.map (·.categoryId)
  match collectKps cfg annsF with
  | none => none
  | some kpsRaw =>
    match maskStage cfg ip annsF rawBoxes with
    | none => none
    | some (mOpt, bbs1) =>
      match kpStage cfg kpsRaw with
      | none => none
      | some kpsOpt =>
        let img := store.imgs imageId
        if img.shape.length < 2 then
          some { img := none, labels := [],
                 bboxes := if cfg.includeMask then bbs1 else [],
                 masks := mOpt, keypoints := kpsOpt }
        else
          match imgPromote img with
          | none => none
          | some (h, w, c, val3) =>
            match resizeImM cfg ip3 h w c val3 (bbs1.map boxToInt16) with
            | none => none
            | some (blob, bbsR) =>
              some { img := some blob, labels := rawLabels.map toInt8,
                     bboxes := bbsR, masks := mOpt, keypoints := kpsOpt }

/-- Iterator state of the generator. -/
structure GenState where
  imgIds : List ℕ
  currentBatchIndex : ℕ
  totalBatchSize : ℕ

/-- The batch record returned by next_batch (the five stacked lists; the
leading dimension of each numpy array is the list length here). -/
structure Batch where
  imgs : List (Option Blob)
  bboxes : List (List Box)
  labels : List (List ℤ)
  masks : List (Option MaskStack)
  keypoints : List (List (List Tri))

/-- load_data (lines 30-41): keep the image ids with at least one
annotation matching the crowd policy; epoch boundary is
len(ids) / batchSize (floor). -/
def loadDataB (cfg : Cfg) (store : Store) : GenState :=
  let tgt := store.imgIds.filter fun i =>
    !((store.anns i).filter fun a => a.iscrowd == cfg.includeCrowd).isEmpty
  { imgIds := tgt, currentBatchIndex := 0, totalBatchSize := tgt.length / cfg.batchSize }

/-- Lines 61-67 of next_batch: truncate boxes/labels to max_instances when
the label count exceeds it, else zero-pad by (max_instances - labels)
rows.  np.pad on the 1-D empty bboxes array (an empty Python list, as a
decode-failed maskless sample carries) raises. -/
def padBoxLab (maxI : ℕ) (bbs : List Box) (lbs : List ℤ) :
    Option (List Box × List ℤ) :=
  if maxI < lbs.length then some (bbs.take maxI, lbs.take maxI)
  else if bbs.isEmpty then none
  else some (bbs ++ List.replicate (maxI - lbs.length) ((0 : ℤ), 0, 0, 0),
             lbs ++ List.replicate (maxI - lbs.length) 0)

/-- numpy int32 cast of the stacked image blobs. -/
def blobInt32 (b : Blob) : Blob :=
  { b with val := fun i j k => ((truncQ (b.val i j k) : ℤ) : ℚ) }

/-- Loop body of next_batch (lines 55-73) for one image id: build the
sample, then truncate/pad its boxes and labels.  The
`len(np.shape(data['img'])) > 0` guard of line 58 is always true —
np.shape of both the empty list and an image array is a nonempty tuple —
so every sample of the slice is retained. -/
def stepRow (cfg : Cfg) (ip : Interp) (ip3 : Interp3) (store : Store) (i : ℕ) :
    Option (Sample × List Box × List ℤ) :=
  match dataGeneration cfg ip ip3 store i with
  | none => none
  | some d =>
    match padBoxLab cfg.maxInstances d.bboxes d.labels with
    | none => none
    | some (bb, lb) => some (d, bb, lb)

/-- Lines 80-86: stack the retained rows, with the numpy element casts
(imgs int32, bboxes int16, labels int8, keypoints int16); masks and
keypoints are only stacked when the corresponding inclusion is on. -/
def mkBatch (cfg : Cfg) (rows : List (Sample × List Box × List ℤ)) : Batch :=
  { imgs := rows.map fun r => r.1.img.map blobInt32,
    bboxes := rows.map fun r => r.2.1.map boxToInt16,
    labels := rows.map fun r => r.2.2.map toInt8,
    masks := if cfg.includeMask then rows.map fun r => r.1.masks else [],
    keypoints := if cfg.includeKeypoint then
        rows.map fun r => (r.1.keypoints.getD []).map (List.map tri16)
      else [] }

/-- One pass of next_batch (lines 43-88) up to the under-fill check:
epoch rollover, slice, build + pad every sample of the slice, advance the
cursor, then either return the stacked batch or signal a retry (inner
`none`) when fewer than batchSize samples were gathered.  The outer
`none` models an exception aborting the call. -/
def stepB (cfg : Cfg) (ip : Interp) (ip3 : Interp3) (store : Store)
    (perm : List ℕ → List ℕ) (st : GenState) :
    Option (Option Batch × GenState) :=
  let st1 := if st.totalBatchSize ≤ st.currentBatchIndex
             then { st with currentBatchIndex := 0, imgIds := perm st.imgIds }
             else st
  let ids := (st1.imgIds.drop (st1.currentBatchIndex * cfg.batchSize)).take cfg.batchSize
  (optMap (stepRow cfg ip ip3 store) ids).map fun rows =>
    let st2 := { st1 with currentBatchIndex := st1.currentBatchIndex + 1 }
    if rows.length < cfg.batchSize then (none, st2)
    else (some (mkBatch cfg rows), st2)

/-- next_batch: the under-fill branch (lines 77-78) is a tail-recursive
retry, modelled by iterating `stepB` on fuel; `none` covers both an
exception and a non-terminating retry loop. -/
def nextBatchB (cfg : Cfg) (ip : Interp) (ip3 : Interp3) (store : Store)
    (perm : List ℕ → List ℕ) : ℕ → GenState → Option (Batch × GenState)
  | 0, _ => none
  | Nat.succ n, st =>
    match stepB cfg ip ip3 store perm st with
    | none => none
    | some (some b, st') => some (b, st')
    | some (none, st') => nextBatchB cfg ip ip3 store perm n st'

/-! Concrete fixtures for witnesses and counterexamples. -/

/-- Interpolator returning all zeros: a resize in which every mask pixel
falls below the binarization threshold (as an extreme downscale does). -/
def ipZ : Interp := fun _ _ _ _ _ _ => 0

/-- Interpolator whose output holds a single lit pixel at (1, 1). -/
def ipX : Interp := fun _ _ _ _ i j => if i = 1 ∧ j = 1 then 1 else 0

/-- Three-channel all-zero interpolator. -/
def ip3Z : Interp3 := fun _ _ _ _ _ _ _ => 0

/-- All-zero pixel content. -/
def vz : ℕ → ℕ → ℕ → ℚ := fun _ _ _ => 0

/-- A non-crowd annotation with a 2×2 mask and unit box. -/
def annX : Ann :=
  { bboxX := 0, bboxY := 0, bboxW := 1, bboxH := 1, categoryId := 1,
    iscrowd := false, maskH := 2, maskW := 2,
    maskVal := fun i j => if i = 0 ∧ j = 0 then 1 else 0, keypoints := [] }

/-- The 2×2 mask of annX. -/
def maskX : Mask := annMask annX

/-- Mask-mode configuration with a 4×4×3 target. -/
def cfgX : Cfg :=
  { targetH := 4, targetW := 4, targetC := 3, batchSize := 1, maxInstances := 2,
    includeCrowd := false, includeMask := true, includeKeypoint := false }

/-- Store with one eligible image of shape (2, 2, 3) carrying annX. -/
def storeX : Store :=
  { imgIds := [0], anns := fun _ => [annX], imgs := fun _ => ⟨[2, 2, 3], vz⟩ }

/-- Same store but the image fetch yields a 0-dimensional result
(decode failure). -/
def storeX4 : Store :=
  { imgIds := [0], anns := fun _ => [annX], imgs := fun _ => ⟨[], vz⟩ }

/-- Minimal maskless configuration with a 1×1×3 target. -/
def cfgW : Cfg :=
  { targetH := 1, targetW := 1, targetC := 3, batchSize := 1, maxInstances := 1,
    includeCrowd := false, includeMask := false, includeKeypoint := false }

/-- A plain non-crowd annotation with no mask use and no keypoints. -/
def annW : Ann :=
  { bboxX := 0, bboxY := 0, bboxW := 1, bboxH := 1, categoryId := 1,
    iscrowd := false, maskH := 1, maskW := 1, maskVal := fun _ _ => 0,
    keypoints := [] }

/-- Store with one eligible 1×1×3 image carrying annW. -/
def storeW : Store :=
  { imgIds := [0], anns := fun _ => [annW], imgs := fun _ => ⟨[1, 1, 3], vz⟩ }

/-- Keypoint-mode configuration with a 1×1×3 target. -/
def cfgK : Cfg :=
  { targetH := 1, targetW := 1, targetC := 3, batchSize := 1, maxInstances := 1,
    includeCrowd := false, includeMask := false, includeKeypoint := true }

/-- annW with keypoint (200, 10, 2): the x coordinate exceeds 127. -/
def annK8 : Ann := { annW with keypoints := [200, 10, 2] }

/-- annW with keypoint (300, -200, 2): x and y both out of int8 range. -/
def annK9 : Ann := { annW with keypoints := [300, -200, 2] }

/-- Store with two eligible keypointed images. -/
def storeK : Store :=
  { imgIds := [0, 1],
    anns := fun i => if i = 0 then [annK8] else [annK9],
    imgs := fun _ => ⟨[1, 1, 3], vz⟩ }

/-- cfgW with a batch size of 2, so that a single eligible image gives a
zero epoch boundary and an under-filled slice. -/
def cfgS : Cfg := { cfgW with batchSize := 2 }

/-! Helper lemmas. -/

theorem truncQ_of_nonneg {q : ℚ} (h : 0 ≤ q) : truncQ q = ⌊q⌋ := by
  simp [truncQ, h]

theorem toInt16_eq_self {z : ℤ} (h1 : -32768 ≤ z) (h2 : z < 32768) : toInt16 z = z := by
  unfold toInt16
  omega

theorem toInt8_eq_self {z : ℤ} (h1 : -128 ≤ z) (h2 : z < 128) : toInt8 z = z := by
  unfold toInt8
  omega

theorem toInt16_toInt8 (z : ℤ) : toInt16 (toInt8 z) = toInt8 z := by
  unfold toInt16 toInt8
  omega

theorem tri16_tri8 (t : Tri) : tri16 (tri8 t) = tri8 t := by
  simp [tri16, tri8, toInt16_toInt8]

theorem npRound_natCast (n : ℕ) : npRound (n : ℚ) = n := by
  unfold npRound
  have h : ⌊(n : ℚ) + 1/2⌋ = (n : ℤ) := by
    rw [add_comm, Int.floor_add_nat]
    norm_num
  rw [h]
  exact Int.toNat_natCast n

theorem npRound_le_npRound {p q : ℚ} (h : p ≤ q) : npRound p ≤ npRound q := by
  unfold npRound
  exact Int.toNat_le_toNat (Int.floor_le_floor (by linarith))

/-- The resized extent of either source axis never exceeds the target long
side: dim ≤ max → round(dim * (target / max)) ≤ target. -/
theorem npRound_scale_le {d M T : ℕ} (hdM : d ≤ M) (hM : 0 < M) :
    npRound ((d : ℚ) * ((T : ℚ) / ((M : ℕ) : ℚ))) ≤ T := by
  have hMne : ((M : ℕ) : ℚ) ≠ 0 := Nat.cast_ne_zero.mpr hM.ne'
  have hs0 : 0 ≤ (T : ℚ) / ((M : ℕ) : ℚ) := by positivity
  have hle : (d : ℚ) * ((T : ℚ) / ((M : ℕ) : ℚ)) ≤ ((M : ℕ) : ℚ) * ((T : ℚ) / ((M : ℕ) : ℚ)) :=
    mul_le_mul_of_nonneg_right (by exact_mod_cast hdM) hs0
  have hMT : ((M : ℕ) : ℚ) * ((T : ℚ) / ((M : ℕ) : ℚ)) = (T : ℚ) := by
    field_simp
  calc npRound ((d : ℚ) * ((T : ℚ) / ((M : ℕ) : ℚ)))
      ≤ npRound (((M : ℕ) : ℚ) * ((T : ℚ) / ((M : ℕ) : ℚ))) := npRound_le_npRound hle
    _ = npRound ((T : ℚ)) := by rw [hMT]
    _ = T := npRound_natCast T

theorem optMap_mem {α β : Type} {f : α → Option β} :
    ∀ {l : List α} {res : List β}, optMap f l = some res →
      ∀ b ∈ res, ∃ a ∈ l, f a = some b := by
  intro l
  induction l with
  | nil =>
    intro res h b hb
    simp [optMap] at h
    subst h
    simp at hb
  | cons a l ih =>
    intro res h b hb
    rw [optMap] at h
    cases hfa : f a with
    | none => rw [hfa] at h; simp at h
    | some b0 =>
      rw [hfa] at h
      cases hrec : optMap f l with
      | none => rw [hrec] at h; simp at h
      | some bl =>
        rw [hrec] at h
        simp at h
        subst h
        rcases List.mem_cons.mp hb with hb | hb
        · exact ⟨a, List.mem_cons_self a l, by rw [hfa, hb]⟩
        · obtain ⟨a', ha', hfa'⟩ := ih hrec b hb
          exact ⟨a', List.mem_cons_of_mem a ha', hfa'⟩

theorem optMap_length {α β : Type} {f : α → Option β} :
    ∀ {l : List α} {res : List β}, optMap f l = some res → res.length = l.length := by
  intro l
  induction l with
  | nil =>
    intro res h
    simp [optMap] at h
    subst h
    rfl
  | cons a l ih =>
    intro res h
    rw [optMap] at h
    cases hfa : f a with
    | none => rw [hfa] at h; simp at h
    | some b0 =>
      rw [hfa] at h
      cases hrec : optMap f l with
      | none => rw [hrec] at h; simp at h
      | some bl =>
        rw [hrec] at h
        simp at h
        subst h
        simp [ih hrec]

/-! Claim C6. -/

/-- C6: for every input image, whatever its height, width and aspect ratio
(with a square target of the configured channel count, as the default
640×640×3 configuration), resizeImage returns a buffer whose shape is
exactly the configured target shape, with the resized image — both axes
scaled by the single aspect-preserving factor targetH / max(h, w) — placed
at the top-left origin and every remaining element equal to zero. -/
theorem c6_resizeIm_shape (cfg : Cfg) (ip3 : Interp3) (h w : ℕ)
    (val3 : ℕ → ℕ → ℕ → ℚ) (boxes : List Box)
    (hh : 0 < h) (hw : 0 < w) (hsq : cfg.targetW = cfg.targetH) :
    ∃ blob bxs, resizeImM cfg ip3 h w cfg.targetC val3 boxes = some (blob, bxs) ∧
      blob.height = cfg.targetH ∧ blob.width = cfg.targetW ∧
      blob.channels = cfg.targetC ∧
      blob.rh = npRound ((h : ℚ) * ((cfg.targetH : ℚ) / ((max h w : ℕ) : ℚ))) ∧
      blob.rw = npRound ((w : ℚ) * ((cfg.targetH : ℚ) / ((max h w : ℕ) : ℚ))) ∧
      (∀ i j k, blob.rh ≤ i ∨ blob.rw ≤ j → blob.val i j k = 0) ∧
      (∀ i j k, i < blob.rh → j < blob.rw →
        blob.val i j k = ip3 h w val3 ((cfg.targetH : ℚ) / ((max h w : ℕ) : ℚ)) i j k) := by
  have hM : 0 < max h w := lt_of_lt_of_le hh (le_max_left _ _)
  have hh' : npRound ((h : ℚ) * ((cfg.targetH : ℚ) / ((max h w : ℕ) : ℚ))) ≤ cfg.targetH :=
    npRound_scale_le (le_max_left h w) hM
  have hw' : npRound ((w : ℚ) * ((cfg.targetH : ℚ) / ((max h w : ℕ) : ℚ))) ≤ cfg.targetW := by
    rw [hsq]
    exact npRound_scale_le (le_max_right h w) hM
  unfold resizeImM
  rw [if_neg hM.ne']
  rw [if_pos ⟨hh', hw', rfl⟩]
  refine ⟨_, _, rfl, rfl, rfl, rfl, rfl, rfl, ?_, ?_⟩
  · intro i j k hij
    dsimp only at hij ⊢
    exact if_neg (by push_neg; omega)
  · intro i j k hi hj
    dsimp only at hi hj ⊢
    exact if_pos ⟨hi, hj⟩

/-- C6 witness: a 1×1 image against the square 1×1×3 target. -/
theorem c6_witness : (resizeImM cfgW ip3Z 1 1 cfgW.targetC vz []).isSome = true := by
  obtain ⟨blob, bxs, heq, -⟩ :=
    c6_resizeIm_shape cfgW ip3Z 1 1 vz [] (by decide) (by decide) (by decide)
  rw [heq]
  rfl

/-! Claim C7. -/

/-- C7 counterexample: the claim says every output coordinate equals
floor(original × s).  At coordinate -1 with scale 1/2 the code truncates
toward zero and returns 0, while floor((-1) × 1/2) = -1. -/
theorem c7_counterexample :
    resizeBoxesM [(-1, -1, -1, -1)] (1/2) = [(0, 0, 0, 0)] ∧
    (⌊((-1 : ℤ) : ℚ) * (1/2)⌋ : ℤ) = -1 ∧ ¬ ((0 : ℤ) = -1) := by
  refine ⟨by with_unfolding_all rfl, by with_unfolding_all rfl, by decide⟩

/-- C7 amended: resizeBoxes maps each box coordinate independently to its
scaled value truncated toward zero and wrapped to int16 — so it equals
floor(original × s) whenever the scaled coordinate is nonnegative and
below 2^15.  The output is the elementwise image of the input list: no
reordering, validation or rejection occurs, also when a box violates
coordinate order (see the witness, whose box has xmin > xmax). -/
theorem c7_amended (boxes : List Box) (s : ℚ)
    (hg : ∀ b ∈ boxes,
      (0 ≤ (b.1 : ℚ) * s ∧ (b.1 : ℚ) * s < 32768) ∧
      (0 ≤ (b.2.1 : ℚ) * s ∧ (b.2.1 : ℚ) * s < 32768) ∧
      (0 ≤ (b.2.2.1 : ℚ) * s ∧ (b.2.2.1 : ℚ) * s < 32768) ∧
      (0 ≤ (b.2.2.2 : ℚ) * s ∧ (b.2.2.2 : ℚ) * s < 32768)) :
    resizeBoxesM boxes s = boxes.map fun b =>
      (⌊(b.1 : ℚ) * s⌋, ⌊(b.2.1 : ℚ) * s⌋, ⌊(b.2.2.1 : ℚ) * s⌋, ⌊(b.2.2.2 : ℚ) * s⌋) := by
  have key : ∀ q : ℚ, 0 ≤ q → q < 32768 → toInt16 (truncQ q) = ⌊q⌋ := by
    intro q h0 h1
    rw [truncQ_of_nonneg h0]
    exact toInt16_eq_self
      (le_trans (by norm_num) (Int.floor_nonneg.mpr h0))
      (Int.floor_lt.mpr (by exact_mod_cast h1))
  unfold resizeBoxesM
  refine List.map_congr_left ?_
  intro b hb
  obtain ⟨⟨h10, h11⟩, ⟨h20, h21⟩, ⟨h30, h31⟩, ⟨h40, h41⟩⟩ := hg b hb
  rw [key _ h10 h11, key _ h20 h21, key _ h30 h31, key _ h40 h41]

/-- C7 witness: a box with xmin > xmax and ymin > ymax passes through
elementwise at scale 1/2. -/
theorem c7_witness : resizeBoxesM [(3, 1, 2, 0)] (1/2) = [(1, 0, 1, 0)] := by
  rw [c7_amended [(3, 1, 2, 0)] (1/2) (by intro b hb; simp at hb; subst hb; norm_num)]
  with_unfolding_all rfl

/-! Claim C5. -/

theorem deriveBox_some {bin : ℕ → ℕ → Bool} {h' w' : ℕ} {t : ℕ × ℕ × ℕ × ℕ}
    (h : deriveBox bin h' w' = some t) :
    t.1 < w' ∧ t.2.1 < h' ∧ t.2.2.1 ≤ w' ∧ t.2.2.2 ≤ h' := by
  unfold deriveBox at h
  cases hmc : (nzCols bin h' w').min? with
  | none => rw [hmc] at h; simp at h
  | some a' =>
  rw [hmc] at h
  cases hmr : (nzRows bin h' w').min? with
  | none => rw [hmr] at h; simp at h
  | some b' =>
  rw [hmr] at h
  cases hxc : (nzCols bin h' w').max? with
  | none => rw [hxc] at h; simp at h
  | some c' =>
  rw [hxc] at h
  cases hxr : (nzRows bin h' w').max? with
  | none => rw [hxr] at h; simp at h
  | some d' =>
  rw [hxr] at h
  simp only [Option.some.injEq] at h
  subst h
  have ha : a' ∈ nzCols bin h' w' := List.min?_mem (fun a b => min_choice a b) hmc
  have hb : b' ∈ nzRows bin h' w' := List.min?_mem (fun a b => min_choice a b) hmr
  have ha' : a' < w' := List.mem_range.mp (List.mem_of_mem_filter ha)
  have hb' : b' < h' := List.mem_range.mp (List.mem_of_mem_filter hb)
  refine ⟨?_, ?_, ?_, ?_⟩ <;> dsimp only <;> split <;> omega

theorem resizeMaskOne_bounds {cfg : Cfg} {h' w' : ℕ} {bin : ℕ → ℕ → Bool} {b : Box}
    (hW : cfg.targetW < 32768) (hH : cfg.targetH < 32768)
    (h : resizeMaskOne cfg h' w' bin = some b) :
    0 ≤ b.1 ∧ 0 ≤ b.2.1 ∧ b.2.2.1 ≤ (w' : ℤ) ∧ b.2.2.2 ≤ (h' : ℤ) ∧
      h' ≤ cfg.targetH ∧ w' ≤ cfg.targetW := by
  unfold resizeMaskOne at h
  cases hd : deriveBox bin h' w' with
  | none => rw [hd] at h; simp at h
  | some t =>
    rw [hd] at h
    obtain ⟨hb1, hb2, hb3, hb4⟩ := deriveBox_some hd
    obtain ⟨a, b0, c, d⟩ := t
    dsimp only at h hb1 hb2 hb3 hb4
    split at h
    · rename_i hfit
      simp only [Option.some.injEq] at h
      subst h
      have ha : toInt16 (a : ℤ) = (a : ℤ) := toInt16_eq_self (by omega) (by omega)
      have hb : toInt16 (b0 : ℤ) = (b0 : ℤ) := toInt16_eq_self (by omega) (by omega)
      have hc : toInt16 (c : ℤ) = (c : ℤ) := toInt16_eq_self (by omega) (by omega)
      have hd' : toInt16 (d : ℤ) = (d : ℤ) := toInt16_eq_self (by omega) (by omega)
      refine ⟨?_, ?_, ?_, ?_, hfit.1, hfit.2⟩ <;>
        simp only [ha, hb, hc, hd'] <;> omega
    · simp at h

/-- C5 counterexample: the claim says an all-zero resized mask yields a
zero box without raising.  The code takes np.min of the empty nonzero
index array, which raises: the model returns none (an error), not a
sample with a zero box. -/
theorem c5_counterexample : resizeMaskM cfgX ipZ [maskX] = none := by
  with_unfolding_all rfl

/-- C5 amended: for every mask list on which resizeMask succeeds (so every
mask is nonempty after resizing — an empty one makes the np.min box
derivation raise, see the counterexample), each derived box has mins ≥ 0
and maxes bounded by the resized mask dimensions (themselves bounded by
the target shape).  The bounds need no clamping: the source clamp
conditionals are dead code on index values. -/
theorem c5_amended (cfg : Cfg) (ip : Interp) (masks : List Mask)
    (stk : MaskStack) (boxes : List Box)
    (hW : cfg.targetW < 32768) (hH : cfg.targetH < 32768)
    (hres : resizeMaskM cfg ip masks = some (stk, boxes)) :
    ∀ b ∈ boxes, 0 ≤ b.1 ∧ 0 ≤ b.2.1 ∧ b.2.2.1 ≤ (stk.rw : ℤ) ∧
      b.2.2.2 ≤ (stk.rh : ℤ) ∧ stk.rh ≤ cfg.targetH ∧ stk.rw ≤ cfg.targetW := by
  intro b hb
  cases masks with
  | nil => exact absurd hres (by rw [resizeMaskM]; simp)
  | cons m0 rest =>
    rw [resizeMaskM] at hres
    split at hres
    · obtain ⟨bxs, hmap, hpair⟩ := Option.map_eq_some'.mp hres
      simp only [Prod.mk.injEq] at hpair
      obtain ⟨hstk, hbxs⟩ := hpair
      subst hbxs
      obtain ⟨m, -, hone⟩ := optMap_mem hmap b hb
      have hbd := resizeMaskOne_bounds hW hH hone
      rw [← hstk]
      exact hbd
    · exact absurd hres (by simp)

/-- C5 witness: the single lit pixel at (1, 1) gives box (1, 1, 1, 1),
whose mins are ≥ 0 and maxes within the resized 4×4 mask extent. -/
theorem c5_witness :
    ((resizeMaskM cfgX ipX [maskX]).map Prod.snd = some [(1, 1, 1, 1)]) ∧
    (0 : ℤ) ≤ 1 := by
  refine ⟨by with_unfolding_all rfl, ?_⟩
  have h1 : (resizeMaskM cfgX ipX [maskX]).isSome = true := by with_unfolding_all rfl
  obtain ⟨p, hp⟩ := Option.isSome_iff_exists.mp h1
  have hmem : ((1 : ℤ), (1 : ℤ), (1 : ℤ), (1 : ℤ)) ∈ p.2 := by
    have h2 : (resizeMaskM cfgX ipX [maskX]).map Prod.snd = some [(1, 1, 1, 1)] := by
      with_unfolding_all rfl
    rw [hp] at h2
    simp at h2
    rw [h2]
    exact List.mem_singleton.mpr rfl
  exact (c5_amended cfgX ipX [maskX] p.1 p.2 (by decide) (by decide)
    (by rw [hp]) _ hmem).1

/-! Batch-level helper lemmas. -/

theorem padBoxLab_some {maxI : ℕ} {bbs : List Box} {lbs : List ℤ}
    {p : List Box × List ℤ} (h : padBoxLab maxI bbs lbs = some p) :
    p.2.length = maxI ∧ (bbs.length = lbs.length → p.1.length = maxI) := by
  unfold padBoxLab at h
  split at h
  · rename_i hlt
    simp only [Option.some.injEq] at h
    subst h
    constructor
    · simp
      omega
    · intro hbl
      simp
      omega
  · rename_i hge
    split at h
    · simp at h
    · simp only [Option.some.injEq] at h
      subst h
      constructor
      · simp
        omega
      · intro hbl
        simp
        omega

theorem stepRow_some {cfg : Cfg} {ip : Interp} {ip3 : Interp3} {store : Store}
    {i : ℕ} {r : Sample × List Box × List ℤ}
    (h : stepRow cfg ip ip3 store i = some r) :
    dataGeneration cfg ip ip3 store i = some r.1 ∧
      padBoxLab cfg.maxInstances r.1.bboxes r.1.labels = some (r.2.1, r.2.2) := by
  unfold stepRow at h
  cases hd : dataGeneration cfg ip ip3 store i with
  | none => rw [hd] at h; simp at h
  | some d =>
    rw [hd] at h
    dsimp only at h
    cases hp : padBoxLab cfg.maxInstances d.bboxes d.labels with
    | none => rw [hp] at h; simp at h
    | some q =>
      rw [hp] at h
      obtain ⟨bb, lb⟩ := q
      dsimp only at h
      simp only [Option.some.injEq] at h
      subst h
      exact ⟨rfl, hp⟩

/-- Everything a successfully returned batch of one stepB pass satisfies. -/
theorem stepB_some_batch {cfg : Cfg} {ip : Interp} {ip3 : Interp3} {store : Store}
    {perm : List ℕ → List ℕ} {st : GenState} {ob : Option Batch} {st' : GenState}
    (h : stepB cfg ip ip3 store perm st = some (ob, st')) (b : Batch)
    (hob : ob = some b) :
    b.imgs.length = cfg.batchSize ∧ b.bboxes.length = cfg.batchSize ∧
      b.labels.length = cfg.batchSize ∧
      (cfg.includeMask = true → b.masks.length = cfg.batchSize) ∧
      (cfg.includeKeypoint = true → b.keypoints.length = cfg.batchSize) ∧
      (∀ lb ∈ b.labels, lb.length = cfg.maxInstances) := by
  subst hob
  unfold stepB at h
  obtain ⟨rows, hrows, hpair⟩ := Option.map_eq_some'.mp h
  dsimp only at hpair
  split at hpair
  · exact absurd (congrArg Prod.fst hpair) (by simp)
  · rename_i hge
    have h1 := congrArg Prod.fst hpair
    simp only [Option.some.injEq] at h1
    have hle : rows.length ≤ cfg.batchSize := by
      rw [optMap_length hrows]
      exact List.length_take_le _ _
    have hlen : rows.length = cfg.batchSize := by omega
    rw [← h1]
    refine ⟨by simp [mkBatch, hlen], by simp [mkBatch, hlen], by simp [mkBatch, hlen],
      ?_, ?_, ?_⟩
    · intro hm
      simp [mkBatch, hm, hlen]
    · intro hk
      simp [mkBatch, hk, hlen]
    · intro lb hlb
      simp only [mkBatch] at hlb
      obtain ⟨r, hr, hmap⟩ := List.mem_map.mp hlb
      obtain ⟨-, hpad⟩ := stepRow_some (optMap_mem hrows r hr).choose_spec.2
      have := (padBoxLab_some hpad).1
      simp only at this
      rw [← hmap]
      simp [this]

/-- Lift a per-pass property of returned batches through the retry
recursion of next_batch. -/
theorem nextBatchB_elim (cfg : Cfg) (ip : Interp) (ip3 : Interp3) (store : Store)
    (perm : List ℕ → List ℕ) (P : Batch → Prop)
    (hstep : ∀ st ob st2 b, stepB cfg ip ip3 store perm st = some (ob, st2) →
      ob = some b → P b) :
    ∀ (fuel : ℕ) (st : GenState) (b : Batch) (st' : GenState),
      nextBatchB cfg ip ip3 store perm fuel st = some (b, st') → P b := by
  intro fuel
  induction fuel with
  | zero =>
    intro st b st' h
    simp [nextBatchB] at h
  | succ n ih =>
    intro st b st' h
    rw [nextBatchB] at h
    cases hs : stepB cfg ip ip3 store perm st with
    | none => rw [hs] at h; simp at h
    | some p =>
      rw [hs] at h
      obtain ⟨ob, st2⟩ := p
      cases ob with
      | none =>
        dsimp only at h
        exact ih st2 b st' h
      | some b0 =>
        dsimp only at h
        simp only [Option.some.injEq, Prod.mk.injEq] at h
        obtain ⟨hb, -⟩ := h
        subst hb
        exact hstep st (some b0) st2 b0 hs rfl

/-! Claim C2. -/

/-- C2: every call of next_batch that returns (terminates) yields a batch
of exactly batchSize samples: the leading dimension of imgs, bboxes and
labels — and of masks / keypoints whenever those are stacked — equals the
configured batch size.  (The under-fill retry of lines 77-78 discards a
short pass and recurses; a pass aborted by an exception, e.g. a decode
failure crashing the padding of an empty box array, yields no batch at
all, so every batch actually returned is full.) -/
theorem c2_batch_full (cfg : Cfg) (ip : Interp) (ip3 : Interp3) (store : Store)
    (perm : List ℕ → List ℕ) (fuel : ℕ) (st : GenState) (b : Batch) (st' : GenState)
    (h : nextBatchB cfg ip ip3 store perm fuel st = some (b, st')) :
    b.imgs.length = cfg.batchSize ∧ b.bboxes.length = cfg.batchSize ∧
      b.labels.length = cfg.batchSize ∧
      (cfg.includeMask = true → b.masks.length = cfg.batchSize) ∧
      (cfg.includeKeypoint = true → b.keypoints.length = cfg.batchSize) := by
  refine nextBatchB_elim cfg ip ip3 store perm
    (fun b => b.imgs.length = cfg.batchSize ∧ b.bboxes.length = cfg.batchSize ∧
      b.labels.length = cfg.batchSize ∧
      (cfg.includeMask = true → b.masks.length = cfg.batchSize) ∧
      (cfg.includeKeypoint = true → b.keypoints.length = cfg.batchSize))
    ?_ fuel st b st' h
  intro st0 ob st2 b0 hs hob
  have := stepB_some_batch hs b0 hob
  exact ⟨this.1, this.2.1, this.2.2.1, this.2.2.2.1, this.2.2.2.2.1⟩

/-- C2 witness: a concrete terminating call with batchSize 1 returns one
sample. -/
theorem c2_witness :
    (nextBatchB cfgW ipZ ip3Z storeW id 1 (loadDataB cfgW storeW)).map
      (fun p => p.1.imgs.length) = some cfgW.batchSize := by
  have h1 : (nextBatchB cfgW ipZ ip3Z storeW id 1 (loadDataB cfgW storeW)).isSome = true := by
    with_unfolding_all rfl
  obtain ⟨p, hp⟩ := Option.isSome_iff_exists.mp h1
  have h2 := c2_batch_full cfgW ipZ ip3Z storeW id 1 (loadDataB cfgW storeW) p.1 p.2
    (by rw [hp])
  rw [hp]
  simp [h2.1]

/-! Claim C3. -/

/-- C3 counterexample: the claim says every instance-level field,
including masks, has instance dimension max_instances.  With
max_instances = 2, a returned batch holds a mask stack whose instance
dimension is 1: masks are never truncated or padded. -/
theorem c3_counterexample :
    (nextBatchB cfgX ipX ip3Z storeX id 1 (loadDataB cfgX storeX)).map
      (fun p => p.1.masks.map (Option.map MaskStack.n)) = some [some 1] ∧
    cfgX.maxInstances = 2 ∧ ¬ ([some 1] = [some cfgX.maxInstances]) := by
  refine ⟨by with_unfolding_all rfl, by with_unfolding_all rfl, by decide⟩

/-- C3 amended: in every returned batch the labels lists all have exactly
max_instances entries (truncated to the first max_instances when the
label count exceeds it, zero-padded otherwise), and the padded/truncated
box list of a sample has exactly max_instances entries whenever its box
count matches its label count (as holds for every decode-successful
sample); masks and keypoints are not normalized and keep per-sample
instance counts (see the counterexample). -/
theorem c3_amended :
    (∀ (cfg : Cfg) (ip : Interp) (ip3 : Interp3) (store : Store)
       (perm : List ℕ → List ℕ) (fuel : ℕ) (st : GenState) (b : Batch) (st' : GenState),
       nextBatchB cfg ip ip3 store perm fuel st = some (b, st') →
       ∀ lb ∈ b.labels, lb.length = cfg.maxInstances) ∧
    (∀ (maxI : ℕ) (bbs : List Box) (lbs : List ℤ) (p : List Box × List ℤ),
       padBoxLab maxI bbs lbs = some p →
       p.2.length = maxI ∧ (bbs.length = lbs.length → p.1.length = maxI)) := by
  constructor
  · intro cfg ip ip3 store perm fuel st b st' h
    refine nextBatchB_elim cfg ip ip3 store perm
      (fun b => ∀ lb ∈ b.labels, lb.length = cfg.maxInstances) ?_ fuel st b st' h
    intro st0 ob st2 b0 hs hob
    exact (stepB_some_batch hs b0 hob).2.2.2.2.2
  · intro maxI bbs lbs p h
    exact padBoxLab_some h

/-- C3 witness: in the concrete terminating run the single labels list has
exactly max_instances = 1 entries. -/
theorem c3_witness :
    (nextBatchB cfgW ipZ ip3Z storeW id 1 (loadDataB cfgW storeW)).map
      (fun p => p.1.labels.map List.length) = some [cfgW.maxInstances] := by
  have h1 : (nextBatchB cfgW ipZ ip3Z storeW id 1 (loadDataB cfgW storeW)).isSome = true := by
    with_unfolding_all rfl
  obtain ⟨p, hp⟩ := Option.isSome_iff_exists.mp h1
  have hlab : p.1.labels = [[1]] := by
    have h3 : (nextBatchB cfgW ipZ ip3Z storeW id 1 (loadDataB cfgW storeW)).map
        (fun q => q.1.labels) = some [[1]] := by
      with_unfolding_all rfl
    rw [hp] at h3
    simpa using h3
  have h2 := c3_amended.1 cfgW ipZ ip3Z storeW id 1 (loadDataB cfgW storeW) p.1 p.2
    (by rw [hp]) [1] (by rw [hlab]; exact List.mem_singleton.mpr rfl)
  rw [hp]
  simp only [Option.map_some']
  rw [hlab]
  simpa using h2

/-! Claim C10. -/

/-- C10 counterexample: the claim says the cursor satisfies
0 ≤ cursor ≤ epoch boundary at the start of every call.  With one eligible
image and batchSize 2 the boundary is 0, the first pass gathers an
under-filled batch (inner none, i.e. the retry recursion fires), and the
recursive call starts with cursor 1 > 0. -/
theorem c10_counterexample :
    (stepB cfgS ipZ ip3Z storeW id (loadDataB cfgS storeW)).map
      (fun p => (p.1.isNone, p.2.currentBatchIndex, p.2.totalBatchSize)) =
      some (true, 1, 0) ∧
    ¬ ((1 : ℕ) ≤ 0) := by
  exact ⟨by with_unfolding_all rfl, by decide⟩

/-- C10 amended: every pass of next_batch (including the epoch-rollover
shuffle, modelled by an arbitrary permutation) preserves the multiset of
eligible image ids and the epoch boundary total_batch_size; and whenever
the boundary is at least 1, a cursor within [0, boundary] at entry stays
within [0, boundary].  (With boundary 0 the post-rollover increment pushes
the cursor to 1 > 0 — see the counterexample.) -/
theorem c10_amended (cfg : Cfg) (ip : Interp) (ip3 : Interp3) (store : Store)
    (perm : List ℕ → List ℕ) (hperm : ∀ l, List.Perm (perm l) l)
    (st : GenState) (ob : Option Batch) (st' : GenState)
    (h : stepB cfg ip ip3 store perm st = some (ob, st')) :
    List.Perm st'.imgIds st.imgIds ∧
      st'.totalBatchSize = st.totalBatchSize ∧
      (1 ≤ st.totalBatchSize → st.currentBatchIndex ≤ st.totalBatchSize →
        st'.currentBatchIndex ≤ st'.totalBatchSize) := by
  unfold stepB at h
  by_cases hroll : st.totalBatchSize ≤ st.currentBatchIndex
  · rw [if_pos hroll] at h
    obtain ⟨rows, -, hpair⟩ := Option.map_eq_some'.mp h
    have hsnd := congrArg Prod.snd hpair
    dsimp only at hsnd
    have hst2 : st'.imgIds = perm st.imgIds ∧ st'.currentBatchIndex = 1 ∧
        st'.totalBatchSize = st.totalBatchSize := by
      split at hsnd <;> (rw [← hsnd]; exact ⟨rfl, rfl, rfl⟩)
    refine ⟨hst2.1 ▸ hperm st.imgIds, hst2.2.2, ?_⟩
    intro h1 _
    rw [hst2.2.1, hst2.2.2]
    exact h1
  · rw [if_neg hroll] at h
    obtain ⟨rows, -, hpair⟩ := Option.map_eq_some'.mp h
    have hsnd := congrArg Prod.snd hpair
    dsimp only at hsnd
    have hst2 : st'.imgIds = st.imgIds ∧
        st'.currentBatchIndex = st.currentBatchIndex + 1 ∧
        st'.totalBatchSize = st.totalBatchSize := by
      split at hsnd <;> (rw [← hsnd]; exact ⟨rfl, rfl, rfl⟩)
    refine ⟨hst2.1 ▸ List.Perm.refl _, hst2.2.2, ?_⟩
    intro h1 h2
    rw [hst2.2.1, hst2.2.2]
    omega

/-- C10 witness: a pass on a consistent state with boundary 1 keeps the id
multiset, the boundary, and the cursor within the boundary. -/
theorem c10_witness :
    (stepB cfgW ipZ ip3Z storeW id (loadDataB cfgW storeW)).map
      (fun p => p.2.totalBatchSize) = some (loadDataB cfgW storeW).totalBatchSize := by
  have h1 : (stepB cfgW ipZ ip3Z storeW id (loadDataB cfgW storeW)).isSome = true := by
    with_unfolding_all rfl
  obtain ⟨p, hp⟩ := Option.isSome_iff_exists.mp h1
  have h2 := c10_amended cfgW ipZ ip3Z storeW id (fun l => List.Perm.refl l)
    (loadDataB cfgW storeW) p.1 p.2 (by rw [hp])
  rw [hp]
  simp [h2.2.1]

/-! Sample-builder helper lemmas. -/

theorem maskStage_true {cfg : Cfg} {ip : Interp} {anns : List Ann}
    {rawBoxes : List Box} {out : Option MaskStack × List Box}
    (hm : cfg.includeMask = true) (h : maskStage cfg ip anns rawBoxes = some out) :
    ∃ stk mbx, resizeMaskM cfg ip (anns.map annMask) = some (stk, mbx) ∧
      out = (some stk, mbx) := by
  unfold maskStage at h
  rw [hm] at h
  simp only [if_true] at h
  cases hr : resizeMaskM cfg ip (anns.map annMask) with
  | none => rw [hr] at h; simp at h
  | some q =>
    rw [hr] at h
    obtain ⟨stk, mbx⟩ := q
    dsimp only at h
    simp only [Option.some.injEq] at h
    exact ⟨stk, mbx, rfl, h.symm⟩

theorem maskStage_false {cfg : Cfg} {ip : Interp} {anns : List Ann}
    {rawBoxes : List Box} {out : Option MaskStack × List Box}
    (hm : cfg.includeMask = false) (h : maskStage cfg ip anns rawBoxes = some out) :
    out = (none, rawBoxes) := by
  unfold maskStage at h
  rw [hm] at h
  simp at h
  exact h.symm

theorem kpStage_true {cfg : Cfg} {kpsRaw : List (List Tri)}
    {out : Option (List (List Tri))}
    (hk : cfg.includeKeypoint = true) (h : kpStage cfg kpsRaw = some out) :
    uniformLen kpsRaw = true ∧ out = some (kpsRaw.map (List.map tri8)) := by
  unfold kpStage at h
  rw [hk] at h
  simp only [if_true] at h
  cases hu : uniformLen kpsRaw with
  | false => rw [hu] at h; simp at h
  | true =>
    rw [hu] at h
    simp at h
    exact ⟨rfl, h.symm⟩

theorem kpStage_false {cfg : Cfg} {kpsRaw : List (List Tri)}
    {out : Option (List (List Tri))}
    (hk : cfg.includeKeypoint = false) (h : kpStage cfg kpsRaw = some out) :
    out = none := by
  unfold kpStage at h
  rw [hk] at h
  simp at h
  exact h.symm

/-- Success-path anatomy of _data_generation: what a returned sample is
made of, split on whether the image decoded. -/
theorem dataGeneration_some {cfg : Cfg} {ip : Interp} {ip3 : Interp3}
    {store : Store} {imageId : ℕ} {s : Sample}
    (hs : dataGeneration cfg ip ip3 store imageId = some s) :
    ∃ kpsRaw mOpt bbs1 kpsOpt,
      collectKps cfg (annsOf cfg store imageId) = some kpsRaw ∧
      maskStage cfg ip (annsOf cfg store imageId)
        ((annsOf cfg store imageId).map annBox) = some (mOpt, bbs1) ∧
      kpStage cfg kpsRaw = some kpsOpt ∧
      s.masks = mOpt ∧ s.keypoints = kpsOpt ∧
      (((store.imgs imageId).shape.length < 2 ∧ s.img = none ∧ s.labels = [] ∧
          s.bboxes = (if cfg.includeMask then bbs1 else [])) ∨
        (¬ (store.imgs imageId).shape.length < 2 ∧
          ∃ h w c val3 blob bbsR,
            imgPromote (store.imgs imageId) = some (h, w, c, val3) ∧
            resizeImM cfg ip3 h w c val3 (bbs1.map boxToInt16) = some (blob, bbsR) ∧
            s.img = some blob ∧
            s.labels = ((annsOf cfg store imageId).map (·.categoryId)).map toInt8 ∧
            s.bboxes = bbsR)) := by
  unfold dataGeneration at hs
  dsimp only at hs
  cases hck : collectKps cfg (annsOf cfg store imageId) with
  | none => rw [hck] at hs; simp at hs
  | some kpsRaw =>
  rw [hck] at hs
  dsimp only at hs
  cases hms : maskStage cfg ip (annsOf cfg store imageId)
      ((annsOf cfg store imageId).map annBox) with
  | none => rw [hms] at hs; simp at hs
  | some mp =>
  rw [hms] at hs
  obtain ⟨mOpt, bbs1⟩ := mp
  dsimp only at hs
  cases hkp : kpStage cfg kpsRaw with
  | none => rw [hkp] at hs; simp at hs
  | some kpsOpt =>
  rw [hkp] at hs
  dsimp only at hs
  refine ⟨kpsRaw, mOpt, bbs1, kpsOpt, rfl, rfl, hkp, ?_⟩
  split at hs
  · rename_i hdec
    simp only [Option.some.injEq] at hs
    subst hs
    exact ⟨rfl, rfl, Or.inl ⟨hdec, rfl, rfl, rfl⟩⟩
  · rename_i hdec
    cases hpr : imgPromote (store.imgs imageId) with
    | none => rw [hpr] at hs; simp at hs
    | some t =>
    rw [hpr] at hs
    obtain ⟨h, w, c, val3⟩ := t
    dsimp only at hs
    cases hri : resizeImM cfg ip3 h w c val3 (bbs1.map boxToInt16) with
    | none => rw [hri] at hs; simp at hs
    | some q =>
    rw [hri] at hs
    obtain ⟨blob, bbsR⟩ := q
    dsimp only at hs
    simp only [Option.some.injEq] at hs
    subst hs
    exact ⟨rfl, rfl, Or.inr ⟨hdec, h, w, c, val3, blob, bbsR, rfl, hri, rfl, rfl, rfl⟩⟩

theorem resizeImM_some {cfg : Cfg} {ip3 : Interp3} {h w c : ℕ}
    {val3 : ℕ → ℕ → ℕ → ℚ} {boxes : List Box} {blob : Blob} {bbsR : List Box}
    (hr : resizeImM cfg ip3 h w c val3 boxes = some (blob, bbsR)) :
    bbsR = resizeBoxesM boxes ((cfg.targetH : ℚ) / ((max h w : ℕ) : ℚ)) := by
  unfold resizeImM at hr
  split at hr
  · simp at hr
  · dsimp only at hr
    split at hr
    · simp only [Option.some.injEq, Prod.mk.injEq] at hr
      exact hr.2.symm
    · simp at hr

/-- Shared keypoint fact: a returned sample's keypoints are the collected
reshaped triples mapped through the int8 cast. -/
theorem dataGen_keypoints {cfg : Cfg} {ip : Interp} {ip3 : Interp3}
    {store : Store} {imageId : ℕ} {kr : List (List Tri)} {s : Sample}
    (hkp : cfg.includeKeypoint = true)
    (hck : collectKps cfg (annsOf cfg store imageId) = some kr)
    (hs : dataGeneration cfg ip ip3 store imageId = some s) :
    s.keypoints = some (kr.map (List.map tri8)) := by
  obtain ⟨kpsRaw, mOpt, bbs1, kpsOpt, hck', hms, hkpst, hmasks, hkps, -⟩ :=
    dataGeneration_some hs
  rw [hck] at hck'
  injection hck' with hkr
  obtain ⟨-, hout⟩ := kpStage_true hkp hkpst
  rw [hkps, hout, hkr]

/-! Claim C1. -/

/-- C1 counterexample: the claim says the sample's bboxes equal the
mask-derived boxes.  With a 2×2 image against a 4×4 target (image scale
2), the mask-derived box (1, 1, 1, 1) is resized a second time and the
returned bboxes are (2, 2, 2, 2). -/
theorem c1_counterexample :
    (dataGeneration cfgX ipX ip3Z storeX 0).map Sample.bboxes = some [(2, 2, 2, 2)] ∧
    (resizeMaskM cfgX ipX [maskX]).map Prod.snd = some [(1, 1, 1, 1)] ∧
    ¬ (([(2, 2, 2, 2)] : List Box) = [(1, 1, 1, 1)]) := by
  exact ⟨by with_unfolding_all rfl, by with_unfolding_all rfl, by decide⟩

/-- C1 amended: when mask inclusion is enabled and the image decodes, the
returned Sample's masks are the resized mask stack, but its bboxes are the
mask-derived boxes RESIZED A SECOND TIME by the image scale
targetH / max(h, w) (the local bboxes variable rebound at line 202 flows
through the int16 cast of line 219 and the box branch of _resize_im, whose
result wins at line 223); the two agree only when that scale is 1. -/
theorem c1_amended (cfg : Cfg) (ip : Interp) (ip3 : Interp3) (store : Store)
    (imageId : ℕ) (h w c : ℕ) (stk : MaskStack) (mbx : List Box) (s : Sample)
    (hm : cfg.includeMask = true)
    (hsh : (store.imgs imageId).shape = [h, w, c])
    (hmask : resizeMaskM cfg ip ((annsOf cfg store imageId).map annMask) =
      some (stk, mbx))
    (hs : dataGeneration cfg ip ip3 store imageId = some s) :
    s.masks = some stk ∧
      s.bboxes = resizeBoxesM (mbx.map boxToInt16)
        ((cfg.targetH : ℚ) / ((max h w : ℕ) : ℚ)) := by
  obtain ⟨kpsRaw, mOpt, bbs1, kpsOpt, hck, hms, hkpst, hmasks, hkps, hrest⟩ :=
    dataGeneration_some hs
  obtain ⟨stk', mbx', hres', hout⟩ := maskStage_true hm hms
  rw [hmask] at hres'
  simp only [Option.some.injEq, Prod.mk.injEq] at hres'
  obtain ⟨hstk, hmbx⟩ := hres'
  rw [Prod.mk.injEq] at hout
  obtain ⟨hmo, hbb1⟩ := hout
  rcases hrest with ⟨hdec, -⟩ |
    ⟨-, h2, w2, c2, val3, blob, bbsR, hpr, hri, -, -, hbbx⟩
  · rw [hsh] at hdec
    simp at hdec
  · unfold imgPromote at hpr
    rw [hsh] at hpr
    dsimp only at hpr
    simp only [Option.some.injEq, Prod.mk.injEq] at hpr
    obtain ⟨hh, hw2, -, -⟩ := hpr
    constructor
    · rw [hmasks, hmo, ← hstk]
    · rw [hbbx, resizeImM_some hri, hbb1, ← hmbx, ← hh, ← hw2]

/-- C1 witness: the concrete double-resize — mask box (1, 1, 1, 1), image
scale 2, returned bboxes (2, 2, 2, 2) and populated mask stack. -/
theorem c1_witness :
    (dataGeneration cfgX ipX ip3Z storeX 0).map (fun s => (s.bboxes, s.masks.isSome)) =
      some ([(2, 2, 2, 2)], true) := by
  have h1 : (dataGeneration cfgX ipX ip3Z storeX 0).isSome = true := by
    with_unfolding_all rfl
  obtain ⟨s, hs⟩ := Option.isSome_iff_exists.mp h1
  have h2 : (resizeMaskM cfgX ipX ((annsOf cfgX storeX 0).map annMask)).isSome = true := by
    with_unfolding_all rfl
  obtain ⟨q, hq⟩ := Option.isSome_iff_exists.mp h2
  have hq2 : q.2 = [(1, 1, 1, 1)] := by
    have h4 : (resizeMaskM cfgX ipX ((annsOf cfgX storeX 0).map annMask)).map Prod.snd =
        some [(1, 1, 1, 1)] := by
      with_unfolding_all rfl
    rw [hq] at h4
    simpa using h4
  have h3 := c1_amended cfgX ipX ip3Z storeX 0 2 2 3 q.1 q.2 s rfl rfl (by rw [hq]) hs
  rw [hs]
  simp only [Option.map_some', Option.some.injEq, Prod.mk.injEq]
  refine ⟨?_, by rw [h3.1]; rfl⟩
  rw [h3.2, hq2]
  with_unfolding_all rfl

/-! Claim C4. -/

/-- C4 counterexample: the claim says a decode failure yields a fully
empty Sample.  With mask inclusion on, the returned sample of a
decode-failed image has empty img and labels but keeps the mask-derived
bboxes (1, 1, 1, 1) and the mask stack, because the mask branch runs
before the image fetch. -/
theorem c4_counterexample :
    (dataGeneration cfgX ipX ip3Z storeX4 0).map
      (fun s => (s.img.isSome, s.labels, s.bboxes, s.masks.isSome)) =
      some (false, [], [(1, 1, 1, 1)], true) ∧
    ¬ (([(1, 1, 1, 1)] : List Box) = []) := by
  exact ⟨by with_unfolding_all rfl, by decide⟩

/-- C4 amended: a decode failure (fetched image with fewer than 2 dims)
returns a sample whose img and labels are empty, whose masks/bboxes are
empty only when mask inclusion is off — when it is on they keep the
already-computed mask stack and mask-derived boxes — and whose keypoints
are empty only when keypoint inclusion is off, otherwise the collected
int8-wrapped triples. -/
theorem c4_amended (cfg : Cfg) (ip : Interp) (ip3 : Interp3) (store : Store)
    (imageId : ℕ) (s : Sample)
    (hdec : (store.imgs imageId).shape.length < 2)
    (hs : dataGeneration cfg ip ip3 store imageId = some s) :
    s.img = none ∧ s.labels = [] ∧
      (cfg.includeMask = false → s.bboxes = [] ∧ s.masks = none) ∧
      (cfg.includeKeypoint = false → s.keypoints = none) ∧
      (cfg.includeMask = true → ∀ stk mbx,
        resizeMaskM cfg ip ((annsOf cfg store imageId).map annMask) = some (stk, mbx) →
        s.masks = some stk ∧ s.bboxes = mbx) ∧
      (cfg.includeKeypoint = true → ∀ kr,
        collectKps cfg (annsOf cfg store imageId) = some kr →
        s.keypoints = some (kr.map (List.map tri8))) := by
  obtain ⟨kpsRaw, mOpt, bbs1, kpsOpt, hck, hms, hkpst, hmasks, hkps, hrest⟩ :=
    dataGeneration_some hs
  rcases hrest with ⟨-, himg, hlab, hbb⟩ | ⟨hnot, -⟩
  swap
  · exact absurd hdec hnot
  refine ⟨himg, hlab, ?_, ?_, ?_, ?_⟩
  · intro hmf
    have hout := maskStage_false hmf hms
    rw [Prod.mk.injEq] at hout
    obtain ⟨hmo, -⟩ := hout
    refine ⟨?_, by rw [hmasks, hmo]⟩
    rw [hbb]
    simp [hmf]
  · intro hkf
    rw [hkps, kpStage_false hkf hkpst]
  · intro hmt stk mbx hmask
    obtain ⟨stk', mbx', hres', hout⟩ := maskStage_true hmt hms
    rw [hmask] at hres'
    simp only [Option.some.injEq, Prod.mk.injEq] at hres'
    obtain ⟨hstk, hmbx⟩ := hres'
    rw [Prod.mk.injEq] at hout
    obtain ⟨hmo, hbb1⟩ := hout
    refine ⟨by rw [hmasks, hmo, ← hstk], ?_⟩
    rw [hbb]
    simp only [hmt, if_true]
    rw [hbb1, ← hmbx]
  · intro hkt kr hck'
    rw [hck] at hck'
    injection hck' with hkr
    obtain ⟨-, hout⟩ := kpStage_true hkt hkpst
    rw [hkps, hout, hkr]

/-- C4 witness: the concrete decode failure with mask inclusion on. -/
theorem c4_witness :
    (dataGeneration cfgX ipX ip3Z storeX4 0).map
      (fun s => (s.img.isSome, s.labels, s.bboxes)) = some (false, [], [(1, 1, 1, 1)]) := by
  have h1 : (dataGeneration cfgX ipX ip3Z storeX4 0).isSome = true := by
    with_unfolding_all rfl
  obtain ⟨s, hs⟩ := Option.isSome_iff_exists.mp h1
  have h2 : (resizeMaskM cfgX ipX ((annsOf cfgX storeX4 0).map annMask)).isSome = true := by
    with_unfolding_all rfl
  obtain ⟨q, hq⟩ := Option.isSome_iff_exists.mp h2
  have hq2 : q.2 = [(1, 1, 1, 1)] := by
    have h4 : (resizeMaskM cfgX ipX ((annsOf cfgX storeX4 0).map annMask)).map Prod.snd =
        some [(1, 1, 1, 1)] := by
      with_unfolding_all rfl
    rw [hq] at h4
    simpa using h4
  have h3 := c4_amended cfgX ipX ip3Z storeX4 0 s (by decide) hs
  have h5 := h3.2.2.2.2.1 rfl q.1 q.2 (by rw [hq])
  rw [hs]
  simp only [Option.map_some', Option.some.injEq, Prod.mk.injEq]
  exact ⟨by rw [h3.1]; rfl, h3.2.1, by rw [h5.2, hq2]⟩

/-! Claim C8. -/

/-- C8 counterexample: the claim says stored keypoint triples keep the raw
numeric values.  A raw keypoint x of 200 is stored as -56 (int8 wrap). -/
theorem c8_counterexample :
    (dataGeneration cfgK ipZ ip3Z storeK 0).map Sample.keypoints =
      some (some [[(-56, 10, 2)]]) ∧
    (storeK.anns 0).map Ann.keypoints = [[200, 10, 2]] ∧
    ¬ ((-56 : ℤ) = 200) := by
  exact ⟨by with_unfolding_all rfl, by with_unfolding_all rfl, by decide⟩

/-- C8 amended: with keypoint inclusion on, the returned sample's
keypoint triples are the raw (x, y, visibility) values with NO coordinate
rescaling — the image scale never touches them, and a store with the same
annotations but any other image yields identical keypoints — but each
value is wrapped into the signed 8-bit range; triples whose three values
already lie in [-128, 127] are stored exactly. -/
theorem c8_amended (cfg : Cfg) (ip : Interp) (ip3 : Interp3) (store : Store)
    (imageId : ℕ) (kr : List (List Tri)) (s : Sample)
    (hkp : cfg.includeKeypoint = true)
    (hck : collectKps cfg (annsOf cfg store imageId) = some kr)
    (hs : dataGeneration cfg ip ip3 store imageId = some s) :
    s.keypoints = some (kr.map (List.map tri8)) ∧
      (∀ l ∈ kr, ∀ t ∈ l,
        -128 ≤ t.1 ∧ t.1 < 128 → -128 ≤ t.2.1 ∧ t.2.1 < 128 →
        -128 ≤ t.2.2 ∧ t.2.2 < 128 → tri8 t = t) ∧
      (∀ (store' : Store) (s' : Sample),
        store'.anns imageId = store.anns imageId →
        dataGeneration cfg ip ip3 store' imageId = some s' →
        s'.keypoints = s.keypoints) := by
  have h1 := dataGen_keypoints hkp hck hs
  refine ⟨h1, ?_, ?_⟩
  · intro l hl t ht hx hy hv
    obtain ⟨x, y, v⟩ := t
    simp only [tri8]
    rw [toInt8_eq_self hx.1 hx.2, toInt8_eq_self hy.1 hy.2, toInt8_eq_self hv.1 hv.2]
  · intro store' s' hanns hs'
    have hfa : annsOf cfg store' imageId = annsOf cfg store imageId := by
      unfold annsOf
      rw [hanns]
    have hck' : collectKps cfg (annsOf cfg store' imageId) = some kr := by
      rw [hfa]
      exact hck
    rw [dataGen_keypoints hkp hck' hs', h1]

/-- C8 witness: raw triple (300, -200, 2) is stored as the int8-wrapped
(44, 56, 2), independent of the image resize. -/
theorem c8_witness :
    (dataGeneration cfgK ipZ ip3Z storeK 1).map Sample.keypoints =
      some (some [[(44, 56, 2)]]) := by
  have h1 : (dataGeneration cfgK ipZ ip3Z storeK 1).isSome = true := by
    with_unfolding_all rfl
  obtain ⟨s, hs⟩ := Option.isSome_iff_exists.mp h1
  have h2 := c8_amended cfgK ipZ ip3Z storeK 1 [[(300, -200, 2)]] s rfl
    (by with_unfolding_all rfl) hs
  rw [hs]
  simp only [Option.map_some', Option.some.injEq]
  rw [h2.1]
  with_unfolding_all rfl

/-! Claim C9. -/

/-- C9: keypoints are cast to int8 inside _data_generation before the
batch-level int16 cast (the expression used by next_batch line 85 when
stacking), so the batch-exposed 16-bit values are exactly the int8-wrapped
raw values: every x or y outside [-128, 127] is reduced modulo 2^8 into
the signed 8-bit range (hence stored ≠ raw), even though the batch dtype
is 16-bit. -/
theorem c9_batch_kp_wrap (cfg : Cfg) (ip : Interp) (ip3 : Interp3) (store : Store)
    (imageId : ℕ) (kr : List (List Tri)) (s : Sample)
    (hkp : cfg.includeKeypoint = true)
    (hck : collectKps cfg (annsOf cfg store imageId) = some kr)
    (hs : dataGeneration cfg ip ip3 store imageId = some s) :
    (s.keypoints.getD []).map (List.map tri16) = kr.map (List.map tri8) ∧
      (∀ v : ℤ, v < -128 ∨ 127 < v → toInt8 v ≠ v ∧ (toInt8 v - v) % 256 = 0) := by
  have h1 := dataGen_keypoints hkp hck hs
  constructor
  · rw [h1]
    simp only [Option.getD_some, List.map_map]
    refine List.map_congr_left ?_
    intro l hl
    simp only [Function.comp_apply, List.map_map]
    refine List.map_congr_left ?_
    intro t ht
    exact tri16_tri8 t
  · intro v hv
    unfold toInt8
    constructor <;> omega

/-- C9 witness: the batch-level int16 cast leaves the int8-wrapped triple
(-56, 10, 2) (raw x 200) unchanged. -/
theorem c9_witness :
    (dataGeneration cfgK ipZ ip3Z storeK 0).map
      (fun s => (s.keypoints.getD []).map (List.map tri16)) = some [[(-56, 10, 2)]] := by
  have h1 : (dataGeneration cfgK ipZ ip3Z storeK 0).isSome = true := by
    with_unfolding_all rfl
  obtain ⟨s, hs⟩ := Option.isSome_iff_exists.mp h1
  have h2 := c9_batch_kp_wrap cfgK ipZ ip3Z storeK 0 [[(200, 10, 2)]] s rfl
    (by with_unfolding_all rfl) hs
  rw [hs]
  simp only [Option.map_some', Option.some.injEq]
  rw [h2.1]
  with_unfolding_all rfl

end CocoGen
